import Mathlib

/-!
Verification development for the CYW20829 "cryptolite" code example
(`main.c`).  The program demonstrates AES-128 CTR/CFB encryption,
SHA-256 hashing and TRNG-based password generation over a UART menu
loop.  The UART/session logic, the block-count arithmetic, the IV
copying discipline and the password post-processing are embedded
directly from `main.c`; the cipher engines themselves live in the
vendor Cryptolite hardware driver (not part of this repository's
sources) and are modelled from the specification.

Bytes are modelled as `Nat` values (< 256 where it matters) and byte
buffers as `List Nat`.
-/

namespace Cryptolite

/-! ## Constants from `main.c` -/

/-- `MAX_MESSAGE_SIZE` (`main.c`, line 58): size of the `message`,
`encrypted_msg` and `decrypted_msg` buffers, inclusive of the NUL. -/
def MAX_MESSAGE_SIZE : Nat := 100

/-- `AES128_ENCRYPTION_LENGTH` (`main.c`, line 63): AES block size. -/
def AES128_ENCRYPTION_LENGTH : Nat := 16

/-- `AES128_KEY_LENGTH` (`main.c`, line 65). -/
def AES128_KEY_LENGTH : Nat := 16

/-- `PASSWORD_LENGTH` (`main.c`, line 83). -/
def PASSWORD_LENGTH : Nat := 8

/-- `ASCII_7BIT_MASK` (`main.c`, line 81). -/
def ASCII_7BIT_MASK : Nat := 0x7F

/-- `ASCII_VISIBLE_CHARACTER_START` (`main.c`, line 84). -/
def ASCII_VISIBLE_CHARACTER_START : Nat := 33

/-- The fixed demo AES key `aes_key` (`main.c`, lines 113-116). -/
def aes_key : List Nat :=
  [0xAA, 0xBB, 0xCC, 0xDD, 0xEE, 0xFF, 0xFF, 0xEE,
   0xDD, 0xCC, 0xBB, 0xAA, 0xAA, 0xBB, 0xCC, 0xDD]

/-- Initial value of the CTR-mode IV constant `AesCtrIV`
(`main.c`, lines 122-128). -/
def ctrIVBytes : List Nat :=
  [0x00, 0x01, 0x02, 0x03, 0x04, 0x05, 0x06, 0x07,
   0x08, 0x09, 0x0A, 0x0B, 0x0C, 0x0D, 0x0E, 0x0F]

/-- Initial value of the CFB-mode IV constant `AesCfbIV`
(`main.c`, lines 134-140): the same sixteen bytes `00..0F`. -/
def cfbIVBytes : List Nat :=
  [0x00, 0x01, 0x02, 0x03, 0x04, 0x05, 0x06, 0x07,
   0x08, 0x09, 0x0A, 0x0B, 0x0C, 0x0D, 0x0E, 0x0F]

/-! ## Block count

All four cipher entry points (`encrypt_message_ctr`, `decrypt_message_ctr`,
`encrypt_message_cfb`, `decrypt_message_cfb`) compute the block count with
the same expression (`main.c`, lines 439-441, 501-503, 563-565, 623-625). -/

/-- `aes_block_count` as computed in `main.c`:
`(size % 16 == 0) ? size / 16 : 1 + size / 16`. -/
def aes_block_count (size : Nat) : Nat :=
  if size % AES128_ENCRYPTION_LENGTH = 0 then
    size / AES128_ENCRYPTION_LENGTH
  else
    1 + size / AES128_ENCRYPTION_LENGTH

/-! ## AES-128 block cipher

Modelled from the spec: the AES engine invoked through
`Cy_Cryptolite_Aes_Init` / `Cy_Cryptolite_Aes_Ctr` / `Cy_Cryptolite_Aes_Cfb`
is the Cryptolite hardware accelerator, whose implementation is not part of
this repository's sources.  Spec §4.1 describes it as standard AES-128:
10 rounds of SubBytes, ShiftRows, MixColumns (omitted in the final round)
and AddRoundKey, preceded by an initial AddRoundKey, with the standard
key schedule (Rijndael S-box, round constants). -/

/-- Conditional GF(2^8) doubling (multiplication by `x` modulo the AES
polynomial `x^8 + x^4 + x^3 + x + 1`). -/
def xtime (b : Nat) : Nat :=
  if b &&& 0x80 = 0 then (b <<< 1) &&& 0xFF
  else ((b <<< 1) ^^^ 0x1B) &&& 0xFF

/-- Russian-peasant multiplication in GF(2^8); the first argument is the
remaining bit budget (8 for byte operands). -/
def gmulAux : Nat → Nat → Nat → Nat → Nat
  | 0, _, _, acc => acc
  | n + 1, a, b, acc =>
      gmulAux n (xtime a) (b >>> 1) (if b &&& 1 = 1 then acc ^^^ a else acc)

/-- Multiplication in GF(2^8). -/
def gmul (a b : Nat) : Nat := gmulAux 8 a b 0

/-- Multiplicative inverse in GF(2^8) as `a^254` (with `ginv 0 = 0`),
computed by a square-and-multiply chain: `254 = 2+4+8+16+32+64+128`. -/
def ginv (a : Nat) : Nat :=
  let a2 := gmul a a
  let a4 := gmul a2 a2
  let a8 := gmul a4 a4
  let a16 := gmul a8 a8
  let a32 := gmul a16 a16
  let a64 := gmul a32 a32
  let a128 := gmul a64 a64
  gmul a128 (gmul a64 (gmul a32 (gmul a16 (gmul a8 (gmul a4 a2)))))

/-- Rotate an 8-bit value left by `k` bits. -/
def rotl8 (b k : Nat) : Nat := ((b <<< k) ||| (b >>> (8 - k))) &&& 0xFF

/-- The Rijndael S-box: multiplicative inverse followed by the standard
affine transformation. -/
def sboxOf (x : Nat) : Nat :=
  let b := ginv x
  b ^^^ rotl8 b 1 ^^^ rotl8 b 2 ^^^ rotl8 b 3 ^^^ rotl8 b 4 ^^^ 0x63

/-- SubBytes applied to a flat 16-byte state (byte `i` is row `i % 4`,
column `i / 4`, as in FIPS-197). -/
def subBytes (s : List Nat) : List Nat := s.map sboxOf

/-- ShiftRows on the flat state: row `r` is rotated left by `r`
positions. -/
def shiftRows (s : List Nat) : List Nat :=
  [s.getD 0 0, s.getD 5 0, s.getD 10 0, s.getD 15 0,
   s.getD 4 0, s.getD 9 0, s.getD 14 0, s.getD 3 0,
   s.getD 8 0, s.getD 13 0, s.getD 2 0, s.getD 7 0,
   s.getD 12 0, s.getD 1 0, s.getD 6 0, s.getD 11 0]

/-- MixColumns on one column. -/
def mixCol (a0 a1 a2 a3 : Nat) : List Nat :=
  [gmul 2 a0 ^^^ gmul 3 a1 ^^^ a2 ^^^ a3,
   a0 ^^^ gmul 2 a1 ^^^ gmul 3 a2 ^^^ a3,
   a0 ^^^ a1 ^^^ gmul 2 a2 ^^^ gmul 3 a3,
   gmul 3 a0 ^^^ a1 ^^^ a2 ^^^ gmul 2 a3]

/-- MixColumns on the flat 16-byte state. -/
def mixColumns (s : List Nat) : List Nat :=
  mixCol (s.getD 0 0) (s.getD 1 0) (s.getD 2 0) (s.getD 3 0) ++
  mixCol (s.getD 4 0) (s.getD 5 0) (s.getD 6 0) (s.getD 7 0) ++
  mixCol (s.getD 8 0) (s.getD 9 0) (s.getD 10 0) (s.getD 11 0) ++
  mixCol (s.getD 12 0) (s.getD 13 0) (s.getD 14 0) (s.getD 15 0)

/-- AddRoundKey: XOR the state with a 16-byte round key.  The result
always has exactly 16 bytes. -/
def addRoundKey (s k : List Nat) : List Nat :=
  (List.range 16).map fun i => s.getD i 0 ^^^ k.getD i 0

/-- The AES round constant for round `i` (1-based). -/
def rcon : Nat → Nat
  | 1 => 0x01 | 2 => 0x02 | 3 => 0x04 | 4 => 0x08 | 5 => 0x10
  | 6 => 0x20 | 7 => 0x40 | 8 => 0x80 | 9 => 0x1B | 10 => 0x36
  | _ => 0

/-- One-byte left rotation of a key-schedule word. -/
def rotWord : List Nat → List Nat
  | [] => []
  | a :: rest => rest ++ [a]

/-- S-box substitution of a key-schedule word. -/
def subWord (w : List Nat) : List Nat := w.map sboxOf

/-- Byte-wise XOR of two words. -/
def xorWord (a b : List Nat) : List Nat := List.zipWith Nat.xor a b

/-- Append key-schedule word `i` (for `i ≥ 4`) to the schedule built so
far: `w[i] = w[i-4] ⊕ t` where `t = SubWord(RotWord(w[i-1])) ⊕ Rcon(i/4)`
when `i % 4 = 0` and `t = w[i-1]` otherwise. -/
def nextWord (ws : List (List Nat)) (i : Nat) : List (List Nat) :=
  let prev := ws.getD (i - 1) []
  let t :=
    if i % 4 = 0 then xorWord (subWord (rotWord prev)) [rcon (i / 4), 0, 0, 0]
    else prev
  ws ++ [xorWord (ws.getD (i - 4) []) t]

/-- AES-128 key expansion, producing the 44 schedule words. -/
def expandKey (key : List Nat) : List (List Nat) :=
  (List.range 40).foldl (fun ws j => nextWord ws (j + 4))
    [key.take 4, (key.drop 4).take 4, (key.drop 8).take 4, (key.drop 12).take 4]

/-- Round key `r` (0-based): schedule words `4r .. 4r+3` concatenated. -/
def roundKey (ws : List (List Nat)) (r : Nat) : List Nat :=
  ws.getD (4 * r) [] ++ ws.getD (4 * r + 1) [] ++
    ws.getD (4 * r + 2) [] ++ ws.getD (4 * r + 3) []

/-- One of the nine full AES rounds. -/
def aesRound (s rk : List Nat) : List Nat :=
  addRoundKey (mixColumns (shiftRows (subBytes s))) rk

/-- The final AES round (MixColumns omitted). -/
def aesFinalRound (s rk : List Nat) : List Nat :=
  addRoundKey (shiftRows (subBytes s)) rk

/-- AES-128 single-block encryption: `encryptBlock(schedule, in)` of
spec §4.1. -/
def encryptBlock (key block : List Nat) : List Nat :=
  let ws := expandKey key
  let s0 := addRoundKey block (roundKey ws 0)
  aesFinalRound
    ((List.range 9).foldl (fun s r => aesRound s (roundKey ws (r + 1))) s0)
    (roundKey ws 10)

/-- The block transform used by every cipher call in `main.c`: AES-128
under the fixed demo key. -/
def aesEk : List Nat → List Nat := encryptBlock aes_key

/-! ## Mode engines

Modelled from the spec (§4.2, §4.3): `Cy_Cryptolite_Aes_Ctr` and
`Cy_Cryptolite_Aes_Cfb` run CTR / 128-bit CFB over full 16-byte blocks;
the byte count passed by `main.c` is always `aes_block_count size * 16`,
and the source buffer is read zero-padded to that length. -/

/-- Big-endian increment of the 16-byte counter block, little-endian
helper: increment with carry starting at the head. -/
def incrLE : List Nat → List Nat
  | [] => []
  | b :: bs => if b = 255 then 0 :: incrLE bs else (b + 1) :: bs

/-- Increment the counter block interpreted as a 128-bit big-endian
integer (spec §4.2). -/
def incrCounter (c : List Nat) : List Nat := (incrLE c.reverse).reverse

/-- CTR mode over a list of 16-byte blocks, parametric in the block
transform `ek`: each block is XORed with `ek` of the current counter and
the counter is incremented per block.  Returns the processed blocks and
the final counter value (the engine mutates the caller-supplied counter
copy, spec §4.2). -/
def ctrBlocks (ek : List Nat → List Nat) :
    List Nat → List (List Nat) → List (List Nat) × List Nat
  | ctr, [] => ([], ctr)
  | ctr, b :: bs =>
      let ob := List.zipWith Nat.xor b (ek ctr)
      let r := ctrBlocks ek (incrCounter ctr) bs
      (ob :: r.1, r.2)

/-- Direction flag of `Cy_Cryptolite_Aes_Cfb`
(`CY_CRYPTOLITE_ENCRYPT` / `CY_CRYPTOLITE_DECRYPT`). -/
inductive CfbDir where
  | encrypt
  | decrypt
deriving DecidableEq

/-- 128-bit CFB over a list of 16-byte blocks (spec §4.3): each block is
XORed with `ek` of the feedback register, and the feedback register
becomes the ciphertext block just produced (encrypt) or just consumed
(decrypt). -/
def cfbBlocks (ek : List Nat → List Nat) (dir : CfbDir) :
    List Nat → List (List Nat) → List (List Nat)
  | _, [] => []
  | fb, b :: bs =>
      let ob := List.zipWith Nat.xor b (ek fb)
      ob :: cfbBlocks ek dir (match dir with
                              | .encrypt => ob
                              | .decrypt => b) bs

/-- Read one 16-byte block from the front of a byte buffer, zero-padded
(out-of-range reads yield the zeroed buffer contents). -/
def block16 (l : List Nat) : List Nat :=
  (List.range 16).map fun i => l.getD i 0

/-- Split a byte buffer into `n` 16-byte blocks, zero-padding past its
end: exactly the `aes_block_count * 16` bytes the engine reads. -/
def chunkPad : Nat → List Nat → List (List Nat)
  | 0, _ => []
  | n + 1, l => block16 l :: chunkPad n (l.drop 16)

/-- Byte-level CTR processing as performed by `encrypt_message_ctr` /
`decrypt_message_ctr` (`main.c`, lines 579-585, 640-646): the counter
starts from the IV copy, and `aes_block_count size * 16` bytes are
processed. -/
def ctrProcess (ek : List Nat → List Nat) (iv : List Nat)
    (size : Nat) (data : List Nat) : List Nat :=
  ((ctrBlocks ek iv (chunkPad (aes_block_count size) data)).1).flatten

/-- The final counter value left in the caller-supplied counter copy by
a CTR call. -/
def ctrFinal (ek : List Nat → List Nat) (iv : List Nat)
    (size : Nat) (data : List Nat) : List Nat :=
  (ctrBlocks ek iv (chunkPad (aes_block_count size) data)).2

/-- Byte-level CFB processing as performed by `encrypt_message_cfb` /
`decrypt_message_cfb` (`main.c`, lines 456-462, 517-523). -/
def cfbProcess (ek : List Nat → List Nat) (dir : CfbDir) (iv : List Nat)
    (size : Nat) (data : List Nat) : List Nat :=
  (cfbBlocks ek dir iv (chunkPad (aes_block_count size) data)).flatten

/-! ## Password generation (`generate_password` / `check_range`) -/

/-- `check_range` (`main.c`, lines 735-742): shift a masked random byte
into the visible ASCII range when it is below `'!'` = 33. -/
def check_range (value : Nat) : Nat :=
  if value < ASCII_VISIBLE_CHARACTER_START then
    value + ASCII_VISIBLE_CHARACTER_START
  else
    value

/-- The inner `for (j = 0; j < 4; j++)` loop of `generate_password`
(`main.c`, lines 700-707): extract `j` bytes of `random_val` starting at
bit position `bitpos` (which advances by 8 each step), mask each to
7 bits, and pass it through `check_range`. -/
def password_chunk : Nat → Nat → Nat → List Nat
  | 0, _, _ => []
  | j + 1, random_val, bitpos =>
      check_range ((random_val >>> bitpos) &&& ASCII_7BIT_MASK) ::
        password_chunk j random_val (bitpos + 8)

/-- The outer `for (index = 0; index < PASSWORD_LENGTH;)` loop of
`generate_password` (`main.c`, lines 691-708).  Iteration `k` draws the
32-bit value `draws k` from the TRNG and appends four characters;
`fuel` bounds the iteration count (the loop starts at `index = 0` with
fuel `PASSWORD_LENGTH`, which is more than enough since `index`
advances by 4). -/
def password_loop (draws : Nat → Nat) : Nat → Nat → List Nat
  | _, 0 => []
  | index, fuel + 1 =>
      if index < PASSWORD_LENGTH then
        password_chunk 4 (draws (index / 4)) 0 ++
          password_loop draws (index + 4) fuel
      else []

/-- The password characters produced by `generate_password` given the
successive TRNG draws. -/
def generate_password_chars (draws : Nat → Nat) : List Nat :=
  password_loop draws 0 PASSWORD_LENGTH

/-- The full `password` array contents after `generate_password`
(`main.c`, lines 683-711): the eight generated characters followed by
the NUL terminator written at `password[index]` with `index = 8`. -/
def generate_password_bytes (draws : Nat → Nat) : List Nat :=
  generate_password_chars draws ++ [0]

/-! ## Session driver state

The global variables of `main.c` that the cipher sessions read and
write: the three 100-byte buffers, the two canonical IV constants and
their copies, and the input state machine variables. -/

/-- `message_status_t` (`main.c`, lines 90-95). -/
inductive MessageStatus where
  | enterNew
  | ready
  | menu
deriving DecidableEq

/-- The mutable globals of `main.c` (lines 106-162). -/
structure ProgState where
  message : List Nat
  encrypted_msg : List Nat
  decrypted_msg : List Nat
  aesCtrIVBuf : List Nat
  aesCtrIVCopied : List Nat
  aesCfbIVBuf : List Nat
  aesCfbIVCopied : List Nat
  msg_status : MessageStatus
  msg_size : Nat

/-- The globals at program start: statics are zero-initialized except
the initialized IV constants. -/
def initState : ProgState where
  message := List.replicate MAX_MESSAGE_SIZE 0
  encrypted_msg := List.replicate MAX_MESSAGE_SIZE 0
  decrypted_msg := List.replicate MAX_MESSAGE_SIZE 0
  aesCtrIVBuf := ctrIVBytes
  aesCtrIVCopied := List.replicate 16 0
  aesCfbIVBuf := cfbIVBytes
  aesCfbIVCopied := List.replicate 16 0
  msg_status := MessageStatus.menu
  msg_size := 0

/-- Overwrite the front of a fixed-size buffer with the engine's output
bytes; output bytes past the end of the buffer fall outside it (see the
C3 analysis) and buffer bytes past the output keep their old value. -/
def writeBuf (buf data : List Nat) : List Nat :=
  data.take buf.length ++ buf.drop data.length

/-- `encrypt_message_ctr` (`main.c`, lines 554-599): copy the canonical
CTR IV into `AesCtrIV_copied` (line 574), run the engine over
`aes_block_count * 16` bytes of `message` with the copied counter —
which the engine advances in place — and write the ciphertext into
`encrypted_msg`. -/
def encrypt_message_ctr (s : ProgState) (size : Nat) : ProgState :=
  let copied := s.aesCtrIVBuf
  { s with
    aesCtrIVCopied := ctrFinal aesEk copied size s.message
    encrypted_msg := writeBuf s.encrypted_msg
      (ctrProcess aesEk copied size s.message) }

/-- `decrypt_message_ctr` (`main.c`, lines 615-661): same engine run on
`encrypted_msg` into `decrypted_msg`, then `decrypted_msg[size] = 0`
(line 656). -/
def decrypt_message_ctr (s : ProgState) (size : Nat) : ProgState :=
  let copied := s.aesCtrIVBuf
  { s with
    aesCtrIVCopied := ctrFinal aesEk copied size s.encrypted_msg
    decrypted_msg := (writeBuf s.decrypted_msg
      (ctrProcess aesEk copied size s.encrypted_msg)).set size 0 }

/-- `encrypt_message_cfb` (`main.c`, lines 431-477): copy the canonical
CFB IV into `AesCfbIV_copied` (line 450) and run the CFB engine over
`message` into `encrypted_msg`. -/
def encrypt_message_cfb (s : ProgState) (size : Nat) : ProgState :=
  let copied := s.aesCfbIVBuf
  { s with
    aesCfbIVCopied := copied
    encrypted_msg := writeBuf s.encrypted_msg
      (cfbProcess aesEk CfbDir.encrypt copied size s.message) }

/-- `decrypt_message_cfb` (`main.c`, lines 493-538): CFB-decrypt
`encrypted_msg` into `decrypted_msg`, then `decrypted_msg[size] = 0`
(line 533). -/
def decrypt_message_cfb (s : ProgState) (size : Nat) : ProgState :=
  let copied := s.aesCfbIVBuf
  { s with
    aesCfbIVCopied := copied
    decrypted_msg := (writeBuf s.decrypted_msg
      (cfbProcess aesEk CfbDir.decrypt copied size s.encrypted_msg)).set size 0 }

/-- `enter_message` (`main.c`, lines 176-225), one loop iteration.
`recv` is the result of `cyhal_uart_getc`: `none` on timeout/failure
(nothing is stored), `some c` when character `c` was received and
stored at `message[msg_size]`.  ENTER (CR or LF) terminates the message
in place; backspace decrements `msg_size` unless it is already 0; any
other character advances `msg_size`, and if the size then exceeds
`MAX_MESSAGE_SIZE - 1` the buffer is cleared and `msg_size` reset. -/
def enter_message (s : ProgState) (recv : Option Nat) : ProgState :=
  match recv with
  | none => s
  | some c =>
    let msg1 := s.message.set s.msg_size c
    if c = 13 ∨ c = 10 then
      { s with message := msg1.set s.msg_size 0, msg_status := MessageStatus.ready }
    else
      let newSize :=
        if c ≠ 8 then s.msg_size + 1
        else if s.msg_size > 0 then s.msg_size - 1 else s.msg_size
      if newSize > MAX_MESSAGE_SIZE - 1 then
        { s with message := List.replicate MAX_MESSAGE_SIZE 0
                 msg_size := 0
                 msg_status := MessageStatus.enterNew }
      else
        { s with message := msg1, msg_size := newSize }

/-- The buffer clearing at the end of `message_ready`
(`main.c`, lines 315-317). -/
def clear_message (s : ProgState) : ProgState :=
  { s with message := List.replicate MAX_MESSAGE_SIZE 0
           msg_size := 0
           msg_status := MessageStatus.menu }

/-- The operations of the main loop that touch the global buffers. -/
inductive Op where
  | enterChar (recv : Option Nat)
  | encCtr (size : Nat)
  | decCtr (size : Nat)
  | encCfb (size : Nat)
  | decCfb (size : Nat)
  | clearMsg

/-- Run one operation on the globals. -/
def runOp (s : ProgState) : Op → ProgState
  | Op.enterChar recv => enter_message s recv
  | Op.encCtr size => encrypt_message_ctr s size
  | Op.decCtr size => decrypt_message_ctr s size
  | Op.encCfb size => encrypt_message_cfb s size
  | Op.decCfb size => decrypt_message_cfb s size
  | Op.clearMsg => clear_message s

/-- Run a sequence of operations on the globals. -/
def runOps (s : ProgState) : List Op → ProgState
  | [] => s
  | op :: ops => runOps (runOp s op) ops

/-! ## Outcome models for error handling (C9)

Each cipher entry point is a straight-line sequence of vendor calls
whose status is checked after each call; any non-success status hits
`CY_ASSERT(0)` and the operation surfaces nothing.  The statuses of the
vendor calls are environment inputs of the model. -/

/-- Status of a vendor Cryptolite call, collapsing every non-success
`cy_en_cryptolite_status_t` value into `failure`. -/
inductive CyStatus where
  | success
  | failure
deriving DecidableEq

/-- Outcome of `encrypt_message_cfb` given the statuses of
`Cy_Cryptolite_Aes_Init`, `Cy_Cryptolite_Aes_Cfb` and
`Cy_Cryptolite_Aes_Free` (`main.c`, lines 444-472): `none` when any
call fails (the `CY_ASSERT(0)` paths), otherwise the full
`aes_block_count * 16`-byte ciphertext. -/
def encrypt_message_cfb_run (sInit sCipher sFree : CyStatus)
    (msg : List Nat) (size : Nat) : Option (List Nat) :=
  match sInit with
  | CyStatus.failure => none
  | CyStatus.success =>
    match sCipher with
    | CyStatus.failure => none
    | CyStatus.success =>
      match sFree with
      | CyStatus.failure => none
      | CyStatus.success =>
        some (cfbProcess aesEk CfbDir.encrypt cfbIVBytes size msg)

/-- Outcome of `decrypt_message_cfb` (`main.c`, lines 506-532). -/
def decrypt_message_cfb_run (sInit sCipher sFree : CyStatus)
    (ciphertext : List Nat) (size : Nat) : Option (List Nat) :=
  match sInit with
  | CyStatus.failure => none
  | CyStatus.success =>
    match sCipher with
    | CyStatus.failure => none
    | CyStatus.success =>
      match sFree with
      | CyStatus.failure => none
      | CyStatus.success =>
        some (cfbProcess aesEk CfbDir.decrypt cfbIVBytes size ciphertext)

/-- Outcome of `encrypt_message_ctr` (`main.c`, lines 567-594). -/
def encrypt_message_ctr_run (sInit sCipher sFree : CyStatus)
    (msg : List Nat) (size : Nat) : Option (List Nat) :=
  match sInit with
  | CyStatus.failure => none
  | CyStatus.success =>
    match sCipher with
    | CyStatus.failure => none
    | CyStatus.success =>
      match sFree with
      | CyStatus.failure => none
      | CyStatus.success =>
        some (ctrProcess aesEk ctrIVBytes size msg)

/-- Outcome of `decrypt_message_ctr` (`main.c`, lines 628-655). -/
def decrypt_message_ctr_run (sInit sCipher sFree : CyStatus)
    (ciphertext : List Nat) (size : Nat) : Option (List Nat) :=
  match sInit with
  | CyStatus.failure => none
  | CyStatus.success =>
    match sCipher with
    | CyStatus.failure => none
    | CyStatus.success =>
      match sFree with
      | CyStatus.failure => none
      | CyStatus.success =>
        some (ctrProcess aesEk ctrIVBytes size ciphertext)

/-- Outcome of the SHA-256 branch of `message_ready`
(`main.c`, lines 295-309).  Modelled from the spec: the digest function
itself is the Cryptolite hardware SHA-256 (not in this repository's
sources), abstracted as `sha`; the branch surfaces the whole digest on
success and nothing on failure (`CY_ASSERT(0)`). -/
def sha256_run (sha : List Nat → List Nat) (st : CyStatus)
    (msg : List Nat) : Option (List Nat) :=
  match st with
  | CyStatus.success => some (sha msg)
  | CyStatus.failure => none

/-- Outcome of `generate_password` (`main.c`, lines 675-719) given the
status of `Cy_Cryptolite_Trng_Init` and of the two `Cy_Cryptolite_Trng`
draws: if TRNG initialization fails the function silently produces no
password; a failed draw hits `CY_ASSERT(0)`; otherwise the full
9-byte password array is produced. -/
def generate_password_run (sInit s0 s1 : CyStatus)
    (draws : Nat → Nat) : Option (List Nat) :=
  match sInit with
  | CyStatus.failure => none
  | CyStatus.success =>
    match s0 with
    | CyStatus.failure => none
    | CyStatus.success =>
      match s1 with
      | CyStatus.failure => none
      | CyStatus.success => some (generate_password_bytes draws)

/-- Invariant of the global state maintained by the main loop: the three
session buffers keep their 100-byte size and the canonical IV constants
keep their initial `00 01 .. 0F` value. -/
def goodState (s : ProgState) : Prop :=
  s.message.length = MAX_MESSAGE_SIZE ∧
  s.encrypted_msg.length = MAX_MESSAGE_SIZE ∧
  s.decrypted_msg.length = MAX_MESSAGE_SIZE ∧
  s.aesCtrIVBuf = ctrIVBytes ∧
  s.aesCfbIVBuf = cfbIVBytes

end Cryptolite

namespace Cryptolite

/-! ## Theorems -/

/-! ### Helper lemmas -/

/-- `aes_block_count` in closed ceiling form. -/
theorem aes_block_count_eq (size : Nat) :
    aes_block_count size = (size + 15) / 16 := by
  unfold aes_block_count AES128_ENCRYPTION_LENGTH
  split <;> omega

/-- The logical message length never exceeds the processed byte count. -/
theorem size_le_block_bytes (size : Nat) : size ≤ 16 * aes_block_count size := by
  rw [aes_block_count_eq]
  omega

/-- `encryptBlock` always produces exactly one 16-byte block. -/
theorem encryptBlock_length (key b : List Nat) :
    (encryptBlock key b).length = 16 := by
  simp [encryptBlock, aesFinalRound, addRoundKey]

/-- The demo-key block transform produces 16-byte blocks. -/
theorem aesEk_length (c : List Nat) : (aesEk c).length = 16 :=
  encryptBlock_length aes_key c

/-- `block16` always produces a 16-byte block. -/
theorem block16_length (l : List Nat) : (block16 l).length = 16 := by
  simp [block16]

/-- Reading a list back element-wise over `List.range` reproduces it. -/
theorem map_getD_range (l : List Nat) :
    ∀ n, l.length = n → (List.range n).map (fun i => l.getD i 0) = l := by
  induction l with
  | nil =>
    intro n h
    simp only [List.length_nil] at h
    subst h
    simp
  | cons a t ih =>
    intro n h
    subst h
    rw [List.length_cons, List.range_succ_eq_map, List.map_cons, List.map_map]
    have : ((fun i => (a :: t).getD i 0) ∘ Nat.succ) = fun i => t.getD i 0 := by
      funext i
      simp [Function.comp]
    rw [List.getD_cons_zero, this, ih t.length rfl]

/-- On a buffer that already holds a full block, `block16` is the
identity. -/
theorem block16_of_length (l : List Nat) (h : l.length = 16) :
    block16 l = l :=
  map_getD_range l 16 h

/-- `chunkPad` produces exactly `n` blocks. -/
theorem chunkPad_length : ∀ (n : Nat) (l : List Nat),
    (chunkPad n l).length = n := by
  intro n
  induction n with
  | zero => intro l; rfl
  | succ n ih => intro l; simp [chunkPad, ih]

/-- Every block produced by `chunkPad` has 16 bytes. -/
theorem chunkPad_mem_length : ∀ (n : Nat) (l : List Nat),
    ∀ b ∈ chunkPad n l, b.length = 16 := by
  intro n
  induction n with
  | zero => intro l b hb; simp [chunkPad] at hb
  | succ n ih =>
    intro l b hb
    simp only [chunkPad, List.mem_cons] at hb
    rcases hb with h | h
    · rw [h]; exact block16_length l
    · exact ih (l.drop 16) b h

/-- Splitting the concatenation of `n` 16-byte blocks recovers exactly
those blocks. -/
theorem chunkPad_flatten : ∀ (blocks : List (List Nat)),
    (∀ b ∈ blocks, b.length = 16) →
    chunkPad blocks.length blocks.flatten = blocks := by
  intro blocks
  induction blocks with
  | nil => intro _; rfl
  | cons b bs ih =>
    intro h
    have hb : b.length = 16 := h b (List.mem_cons_self b bs)
    have hbs : ∀ x ∈ bs, x.length = 16 := fun x hx => h x (List.mem_cons_of_mem b hx)
    rw [List.length_cons, List.flatten_cons]
    show block16 (b ++ bs.flatten) :: chunkPad bs.length ((b ++ bs.flatten).drop 16)
        = b :: bs
    have h1 : block16 (b ++ bs.flatten) = b := by
      unfold block16
      have : ∀ i ∈ List.range 16,
          (b ++ bs.flatten).getD i 0 = b.getD i 0 := by
        intro i hi
        exact List.getD_append b bs.flatten 0 i (by
          rw [hb]; exact List.mem_range.mp hi)
      rw [List.map_congr_left this]
      exact block16_of_length b hb
    have h2 : (b ++ bs.flatten).drop 16 = bs.flatten := by
      rw [← hb, List.drop_left]
    rw [h1, h2, ih hbs]

/-- XOR-ing twice with the same keystream is the identity (the keystream
must cover the data). -/
theorem zipWith_xor_cancel : ∀ (b ks : List Nat), b.length ≤ ks.length →
    List.zipWith Nat.xor (List.zipWith Nat.xor b ks) ks = b := by
  intro b
  induction b with
  | nil => intro ks _; simp
  | cons x xs ih =>
    intro ks h
    cases ks with
    | nil => simp at h
    | cons k kt =>
      simp only [List.zipWith_cons_cons]
      have h1 : Nat.xor (Nat.xor x k) k = x := Nat.xor_cancel_right k x
      rw [h1, ih kt (by simpa using h)]

/-- CTR processes exactly as many blocks as it is given. -/
theorem ctrBlocks_fst_length (ek : List Nat → List Nat) :
    ∀ (bs : List (List Nat)) (ctr : List Nat),
    (ctrBlocks ek ctr bs).1.length = bs.length := by
  intro bs
  induction bs with
  | nil => intro ctr; rfl
  | cons b bs ih => intro ctr; simp [ctrBlocks, ih]

/-- Every CTR output block has 16 bytes (given 16-byte inputs and a
16-byte-output block transform). -/
theorem ctrBlocks_mem_length (ek : List Nat → List Nat)
    (hek : ∀ c, (ek c).length = 16) :
    ∀ (bs : List (List Nat)) (ctr : List Nat), (∀ b ∈ bs, b.length = 16) →
    ∀ ob ∈ (ctrBlocks ek ctr bs).1, ob.length = 16 := by
  intro bs
  induction bs with
  | nil => intro ctr _ ob hob; simp [ctrBlocks] at hob
  | cons b bs ih =>
    intro ctr h ob hob
    simp only [ctrBlocks, List.mem_cons] at hob
    rcases hob with h1 | h1
    · rw [h1, List.length_zipWith, hek ctr, h b (List.mem_cons_self b bs)]
      exact Nat.min_self 16
    · exact ih (incrCounter ctr) (fun x hx => h x (List.mem_cons_of_mem b hx)) ob h1

/-- CTR mode is self-inverse at the block level: processing the output
blocks again with the counter restarted at the same value recovers the
input blocks. -/
theorem ctrBlocks_roundtrip (ek : List Nat → List Nat)
    (hek : ∀ c, (ek c).length = 16) :
    ∀ (bs : List (List Nat)) (ctr : List Nat), (∀ b ∈ bs, b.length = 16) →
    (ctrBlocks ek ctr ((ctrBlocks ek ctr bs).1)).1 = bs := by
  intro bs
  induction bs with
  | nil => intro ctr _; rfl
  | cons b bs ih =>
    intro ctr h
    have hb : b.length = 16 := h b (List.mem_cons_self b bs)
    simp only [ctrBlocks]
    rw [zipWith_xor_cancel b (ek ctr) (by rw [hek ctr, hb])]
    rw [ih (incrCounter ctr) (fun x hx => h x (List.mem_cons_of_mem b hx))]

/-- CFB processes exactly as many blocks as it is given. -/
theorem cfbBlocks_length (ek : List Nat → List Nat) (dir : CfbDir) :
    ∀ (bs : List (List Nat)) (fb : List Nat),
    (cfbBlocks ek dir fb bs).length = bs.length := by
  intro bs
  induction bs with
  | nil => intro fb; rfl
  | cons b bs ih => intro fb; simp [cfbBlocks, ih]

/-- Every CFB output block has 16 bytes (given 16-byte inputs and a
16-byte-output block transform). -/
theorem cfbBlocks_mem_length (ek : List Nat → List Nat) (dir : CfbDir)
    (hek : ∀ c, (ek c).length = 16) :
    ∀ (bs : List (List Nat)) (fb : List Nat), (∀ b ∈ bs, b.length = 16) →
    ∀ ob ∈ cfbBlocks ek dir fb bs, ob.length = 16 := by
  intro bs
  induction bs with
  | nil => intro fb _ ob hob; simp [cfbBlocks] at hob
  | cons b bs ih =>
    intro fb h ob hob
    simp only [cfbBlocks, List.mem_cons] at hob
    rcases hob with h1 | h1
    · rw [h1, List.length_zipWith, hek fb, h b (List.mem_cons_self b bs)]
      exact Nat.min_self 16
    · exact ih _ (fun x hx => h x (List.mem_cons_of_mem b hx)) ob h1

/-- CFB decryption inverts CFB encryption at the block level when
started from the same feedback register: the keystream blocks coincide
because the decrypt side feeds back the ciphertext block it consumes,
which is exactly the block the encrypt side fed back after producing
it. -/
theorem cfbBlocks_roundtrip (ek : List Nat → List Nat)
    (hek : ∀ c, (ek c).length = 16) :
    ∀ (bs : List (List Nat)) (fb : List Nat), (∀ b ∈ bs, b.length = 16) →
    cfbBlocks ek .decrypt fb (cfbBlocks ek .encrypt fb bs) = bs := by
  intro bs
  induction bs with
  | nil => intro fb _; rfl
  | cons b bs ih =>
    intro fb h
    have hb : b.length = 16 := h b (List.mem_cons_self b bs)
    simp only [cfbBlocks]
    rw [zipWith_xor_cancel b (ek fb) (by rw [hek fb, hb])]
    rw [ih _ (fun x hx => h x (List.mem_cons_of_mem b hx))]

/-- The flattened `chunkPad` output is the element-wise (zero-padded)
read of the first `16 * n` buffer bytes. -/
theorem flatten_chunkPad : ∀ (n : Nat) (l : List Nat),
    (chunkPad n l).flatten = (List.range (16 * n)).map (fun i => l.getD i 0) := by
  intro n
  induction n with
  | zero => intro l; rfl
  | succ n ih =>
    intro l
    show (block16 l :: chunkPad n (l.drop 16)).flatten = _
    rw [List.flatten_cons, ih (l.drop 16)]
    have h16 : 16 * (n + 1) = 16 + 16 * n := by ring
    rw [h16, List.range_add, List.map_append, List.map_map]
    congr 1
    apply List.map_congr_left
    intro i _
    simp [List.getD_eq_getElem?_getD, List.getElem?_drop]

/-- Taking the original length back out of zero-padded block processing
input recovers the original buffer. -/
theorem take_flatten_chunkPad (n : Nat) (l : List Nat)
    (h : l.length ≤ 16 * n) :
    ((chunkPad n l).flatten).take l.length = l := by
  rw [flatten_chunkPad, ← List.map_take, List.take_range,
    min_eq_left h]
  exact map_getD_range l l.length rfl

/-- The concatenation of `k` 16-byte blocks has `16 * k` bytes. -/
theorem flatten_length_16 : ∀ (blocks : List (List Nat)),
    (∀ b ∈ blocks, b.length = 16) →
    blocks.flatten.length = 16 * blocks.length := by
  intro blocks
  induction blocks with
  | nil => intro _; rfl
  | cons b bs ih =>
    intro h
    rw [List.flatten_cons, List.length_append, List.length_cons,
      h b (List.mem_cons_self b bs), ih (fun x hx => h x (List.mem_cons_of_mem b hx))]
    ring

/-- A CTR call produces exactly `aes_block_count size * 16` output
bytes. -/
theorem ctrProcess_length (ek : List Nat → List Nat)
    (hek : ∀ c, (ek c).length = 16) (iv : List Nat) (size : Nat)
    (data : List Nat) :
    (ctrProcess ek iv size data).length = 16 * aes_block_count size := by
  unfold ctrProcess
  rw [flatten_length_16 _ (ctrBlocks_mem_length ek hek _ iv
      (chunkPad_mem_length _ data)),
    ctrBlocks_fst_length, chunkPad_length]

/-- A CFB call produces exactly `aes_block_count size * 16` output
bytes. -/
theorem cfbProcess_length (ek : List Nat → List Nat) (dir : CfbDir)
    (hek : ∀ c, (ek c).length = 16) (iv : List Nat) (size : Nat)
    (data : List Nat) :
    (cfbProcess ek dir iv size data).length = 16 * aes_block_count size := by
  unfold cfbProcess
  rw [flatten_length_16 _ (cfbBlocks_mem_length ek dir hek _ iv
      (chunkPad_mem_length _ data)),
    cfbBlocks_length, chunkPad_length]

set_option maxRecDepth 10000 in
/-- Sanity check of the modelled cipher: the AES-128 instance used for
the mode engines reproduces the FIPS-197 Appendix C.1 test vector. -/
theorem encryptBlock_fips197 :
    encryptBlock
      [0x00, 0x01, 0x02, 0x03, 0x04, 0x05, 0x06, 0x07,
       0x08, 0x09, 0x0A, 0x0B, 0x0C, 0x0D, 0x0E, 0x0F]
      [0x00, 0x11, 0x22, 0x33, 0x44, 0x55, 0x66, 0x77,
       0x88, 0x99, 0xAA, 0xBB, 0xCC, 0xDD, 0xEE, 0xFF] =
    [0x69, 0xC4, 0xE0, 0xD8, 0x6A, 0x7B, 0x04, 0x30,
     0xD8, 0xCD, 0xB7, 0x80, 0x70, 0xB4, 0xC5, 0x5A] := by
  decide

/-! ### Claim theorems -/

/-- C1: For every message `m` processed with the fixed demo key,
CTR-encrypting and then CTR-decrypting with the counter restarted from
the canonical IV returns `m` on the first `m.length` bytes of the
output, and likewise CFB-encrypting then CFB-decrypting from the
canonical CFB IV returns `m`.  (The `HELLO` scenario is the witness
instance.) -/
theorem spec_C1_mode_roundtrips (m : List Nat) (size : Nat)
    (h : size = m.length) :
    (ctrProcess aesEk ctrIVBytes size
      (ctrProcess aesEk ctrIVBytes size m)).take m.length = m ∧
    (cfbProcess aesEk CfbDir.decrypt cfbIVBytes size
      (cfbProcess aesEk CfbDir.encrypt cfbIVBytes size m)).take m.length = m := by
  subst h
  constructor
  · unfold ctrProcess
    have hC : chunkPad (aes_block_count m.length)
        ((ctrBlocks aesEk ctrIVBytes
          (chunkPad (aes_block_count m.length) m)).1.flatten)
        = (ctrBlocks aesEk ctrIVBytes (chunkPad (aes_block_count m.length) m)).1 := by
      have h2 := chunkPad_flatten
        ((ctrBlocks aesEk ctrIVBytes (chunkPad (aes_block_count m.length) m)).1)
        (ctrBlocks_mem_length aesEk aesEk_length _ ctrIVBytes
          (chunkPad_mem_length _ m))
      rwa [ctrBlocks_fst_length, chunkPad_length] at h2
    rw [hC, ctrBlocks_roundtrip aesEk aesEk_length _ ctrIVBytes
      (chunkPad_mem_length _ m)]
    exact take_flatten_chunkPad _ m (size_le_block_bytes m.length)
  · unfold cfbProcess
    have hC : chunkPad (aes_block_count m.length)
        ((cfbBlocks aesEk CfbDir.encrypt cfbIVBytes
          (chunkPad (aes_block_count m.length) m)).flatten)
        = cfbBlocks aesEk CfbDir.encrypt cfbIVBytes
            (chunkPad (aes_block_count m.length) m) := by
      have h2 := chunkPad_flatten
        (cfbBlocks aesEk CfbDir.encrypt cfbIVBytes
          (chunkPad (aes_block_count m.length) m))
        (cfbBlocks_mem_length aesEk CfbDir.encrypt aesEk_length _ cfbIVBytes
          (chunkPad_mem_length _ m))
      rwa [cfbBlocks_length, chunkPad_length] at h2
    rw [hC, cfbBlocks_roundtrip aesEk aesEk_length _ cfbIVBytes
      (chunkPad_mem_length _ m)]
    exact take_flatten_chunkPad _ m (size_le_block_bytes m.length)

/-- C1 witness: the 5-byte ASCII message `"HELLO"` round-trips unchanged
through CTR and through CFB under the fixed demo key and canonical
IVs. -/
theorem spec_C1_mode_roundtrips_witness :
    (5:Nat) = ([72, 69, 76, 76, 79] : List Nat).length ∧
    ((ctrProcess aesEk ctrIVBytes 5
        (ctrProcess aesEk ctrIVBytes 5 [72, 69, 76, 76, 79])).take 5 =
      [72, 69, 76, 76, 79] ∧
     (cfbProcess aesEk CfbDir.decrypt cfbIVBytes 5
        (cfbProcess aesEk CfbDir.encrypt cfbIVBytes 5 [72, 69, 76, 76, 79])).take 5 =
      [72, 69, 76, 76, 79]) :=
  ⟨by decide, spec_C1_mode_roundtrips [72, 69, 76, 76, 79] 5 (by decide)⟩

/-- Writing engine output over the front of a fixed-size buffer keeps
the buffer size. -/
theorem writeBuf_length (buf data : List Nat) :
    (writeBuf buf data).length = buf.length := by
  unfold writeBuf
  rw [List.length_append, List.length_take, List.length_drop]
  omega

/-- The visible prefix of a buffer after an engine write is a pure
function of the written data. -/
theorem take_writeBuf (buf data : List Nat) :
    (writeBuf buf data).take data.length = data.take buf.length := by
  unfold writeBuf
  rcases le_or_lt data.length buf.length with h | h
  · rw [List.take_of_length_le h]
    exact List.take_left' rfl
  · rw [List.drop_eq_nil_of_le (le_of_lt h), List.append_nil]
    exact List.take_of_length_le (by rw [List.length_take]; omega)

/-- Setting an in-range byte to zero makes the read at that index
zero. -/
theorem getD_set_zero (l : List Nat) (i : Nat) (h : i < l.length) :
    (l.set i 0).getD i 1 = 0 := by
  rw [List.getD_eq_getElem _ _ (by simpa using h)]
  exact List.getElem_set_self _

/-- No main-loop operation writes to the canonical IV constants: every
cipher call only reads them into its copy buffer. -/
theorem runOp_iv_frame (s : ProgState) (op : Op) :
    (runOp s op).aesCtrIVBuf = s.aesCtrIVBuf ∧
    (runOp s op).aesCfbIVBuf = s.aesCfbIVBuf := by
  cases op with
  | enterChar recv =>
    show (enter_message s recv).aesCtrIVBuf = _ ∧ (enter_message s recv).aesCfbIVBuf = _
    unfold enter_message
    cases recv with
    | none => exact ⟨rfl, rfl⟩
    | some c =>
      dsimp only
      split_ifs <;> exact ⟨rfl, rfl⟩
  | encCtr size => exact ⟨rfl, rfl⟩
  | decCtr size => exact ⟨rfl, rfl⟩
  | encCfb size => exact ⟨rfl, rfl⟩
  | decCfb size => exact ⟨rfl, rfl⟩
  | clearMsg => exact ⟨rfl, rfl⟩

/-- Every main-loop operation preserves the global-state invariant. -/
theorem runOp_good (s : ProgState) (op : Op) (h : goodState s) :
    goodState (runOp s op) := by
  obtain ⟨h1, h2, h3, h4, h5⟩ := h
  have hf := runOp_iv_frame s op
  cases op with
  | enterChar recv =>
    show goodState (enter_message s recv)
    unfold goodState enter_message
    cases recv with
    | none => exact ⟨h1, h2, h3, h4, h5⟩
    | some c =>
      dsimp only
      split_ifs <;> exact ⟨by simp [h1], h2, h3, h4, h5⟩
  | encCtr size => exact ⟨h1, (writeBuf_length _ _).trans h2, h3, hf.1.trans h4, hf.2.trans h5⟩
  | decCtr size =>
    exact ⟨h1, h2, (List.length_set _ _ _).trans ((writeBuf_length _ _).trans h3),
      hf.1.trans h4, hf.2.trans h5⟩
  | encCfb size => exact ⟨h1, (writeBuf_length _ _).trans h2, h3, hf.1.trans h4, hf.2.trans h5⟩
  | decCfb size =>
    exact ⟨h1, h2, (List.length_set _ _ _).trans ((writeBuf_length _ _).trans h3),
      hf.1.trans h4, hf.2.trans h5⟩
  | clearMsg =>
    exact ⟨List.length_replicate _ _, h2, h3, hf.1.trans h4, hf.2.trans h5⟩

/-- Any sequence of main-loop operations preserves the global-state
invariant. -/
theorem runOps_good : ∀ (ops : List Op) (s : ProgState), goodState s →
    goodState (runOps s ops) := by
  intro ops
  induction ops with
  | nil => intro s h; exact h
  | cons op ops ih => intro s h; exact ih (runOp s op) (runOp_good s op h)

/-- The initial global state satisfies the invariant. -/
theorem goodState_init : goodState initState :=
  ⟨List.length_replicate _ _, List.length_replicate _ _,
   List.length_replicate _ _, rfl, rfl⟩

/-- The characters of the generated password, fully unfolded: iteration
`k` of the outer loop uses draw `k`, and the four characters of the
iteration use bit positions 0, 8, 16, 24 of the draw. -/
theorem generate_password_chars_eq (draws : Nat → Nat) :
    generate_password_chars draws =
      [check_range ((draws 0 >>> 0) &&& ASCII_7BIT_MASK),
       check_range ((draws 0 >>> 8) &&& ASCII_7BIT_MASK),
       check_range ((draws 0 >>> 16) &&& ASCII_7BIT_MASK),
       check_range ((draws 0 >>> 24) &&& ASCII_7BIT_MASK),
       check_range ((draws 1 >>> 0) &&& ASCII_7BIT_MASK),
       check_range ((draws 1 >>> 8) &&& ASCII_7BIT_MASK),
       check_range ((draws 1 >>> 16) &&& ASCII_7BIT_MASK),
       check_range ((draws 1 >>> 24) &&& ASCII_7BIT_MASK)] := by
  rfl

/-- C2: For every message length `size`, the block count computed by the
four encrypt/decrypt operations equals `⌈size/16⌉ = (size + 15) / 16`:
`size / 16` when `size` is a multiple of 16 and `size / 16 + 1`
otherwise, so `aes_block_count size * 16` is the least multiple of 16
that is `≥ size`. -/
theorem spec_C2_block_count (size : Nat) :
    aes_block_count size = (size + 15) / 16 ∧
    aes_block_count size * 16 = ((size + 15) / 16) * 16 := by
  unfold aes_block_count AES128_ENCRYPTION_LENGTH
  refine ⟨?_, ?_⟩ <;> (split <;> omega)

/-- C3 (code bug): the input loop accepts message lengths up to
`MAX_MESSAGE_SIZE - 1 = 99`, but for length 97 the cipher engines
process `aes_block_count 97 * 16 = 112` bytes while the `message`,
`encrypted_msg` and `decrypted_msg` buffers hold only
`MAX_MESSAGE_SIZE = 100` bytes: the claimed capacity guarantee fails
for lengths 97, 98 and 99. -/
theorem spec_C3_buffer_overflow :
    97 ≤ MAX_MESSAGE_SIZE - 1 ∧
    aes_block_count 97 * 16 = 112 ∧
    MAX_MESSAGE_SIZE < aes_block_count 97 * 16 ∧
    (ctrProcess aesEk ctrIVBytes 97 (List.replicate MAX_MESSAGE_SIZE 0)).length
      = 112 := by
  refine ⟨by decide, by decide, by decide, ?_⟩
  rw [ctrProcess_length aesEk aesEk_length]
  decide

/-- C4: The canonical IV constants are never mutated: every main-loop
operation leaves `AesCtrIV` and `AesCfbIV` untouched (the cipher calls
only read them into `AesCtrIV_copied` / `AesCfbIV_copied`), so from the
initial state they still hold `00 01 .. 0F` after any sequence of
operations. -/
theorem spec_C4_canonical_iv_immutable :
    (∀ (s : ProgState) (op : Op),
      (runOp s op).aesCtrIVBuf = s.aesCtrIVBuf ∧
      (runOp s op).aesCfbIVBuf = s.aesCfbIVBuf) ∧
    (∀ ops : List Op,
      (runOps initState ops).aesCtrIVBuf = ctrIVBytes ∧
      (runOps initState ops).aesCfbIVBuf = cfbIVBytes) := by
  constructor
  · exact runOp_iv_frame
  · intro ops
    have h := runOps_good ops initState goodState_init
    exact ⟨h.2.2.2.1, h.2.2.2.2⟩

/-- C5: CTR encryption is deterministic across sessions: after any two
operation histories that leave the same bytes in the `message` buffer,
a CTR-encrypt call with the same length produces byte-for-byte the same
ciphertext (the `aes_block_count * 16` bytes the session prints),
because the counter always restarts from the canonical IV constant. -/
theorem spec_C5_ctr_deterministic (ops1 ops2 : List Op) (size : Nat)
    (hmsg : (runOps initState ops1).message = (runOps initState ops2).message) :
    ((runOp (runOps initState ops1) (Op.encCtr size)).encrypted_msg).take
        (aes_block_count size * 16) =
    ((runOp (runOps initState ops2) (Op.encCtr size)).encrypted_msg).take
        (aes_block_count size * 16) := by
  have g1 := runOps_good ops1 initState goodState_init
  have g2 := runOps_good ops2 initState goodState_init
  show (encrypt_message_ctr (runOps initState ops1) size).encrypted_msg.take _
      = (encrypt_message_ctr (runOps initState ops2) size).encrypted_msg.take _
  unfold encrypt_message_ctr
  dsimp only
  rw [g1.2.2.2.1, g2.2.2.2.1, hmsg]
  have hd : (ctrProcess aesEk ctrIVBytes size
      (runOps initState ops2).message).length = aes_block_count size * 16 := by
    rw [ctrProcess_length aesEk aesEk_length]; ring
  rw [← hd, take_writeBuf, take_writeBuf, g1.2.1, g2.2.1]

/-- C5 witness: the first session and a session preceded by an
unrelated CFB encryption and a buffer clear (which leave the message
buffer equal) produce the same CTR ciphertext for length 5. -/
theorem spec_C5_ctr_deterministic_witness :
    (runOps initState []).message =
      (runOps initState [Op.encCfb 7, Op.clearMsg]).message ∧
    ((runOp (runOps initState []) (Op.encCtr 5)).encrypted_msg).take
        (aes_block_count 5 * 16) =
    ((runOp (runOps initState [Op.encCfb 7, Op.clearMsg]) (Op.encCtr 5)).encrypted_msg).take
        (aes_block_count 5 * 16) :=
  ⟨rfl, spec_C5_ctr_deterministic [] [Op.encCfb 7, Op.clearMsg] 5 rfl⟩

/-- C8: After a CTR or CFB decrypt with original length `size`, the
decrypted buffer holds a NUL byte at index `size` (the explicit
`decrypted_msg[size] = 0` writes at `main.c` lines 533 and 656), even
though the engine wrote `aes_block_count * 16` bytes into it. -/
theorem spec_C8_decrypt_nul_terminated (s : ProgState) (size : Nat)
    (h1 : size < MAX_MESSAGE_SIZE)
    (h2 : s.decrypted_msg.length = MAX_MESSAGE_SIZE) :
    (decrypt_message_ctr s size).decrypted_msg.getD size 1 = 0 ∧
    (decrypt_message_cfb s size).decrypted_msg.getD size 1 = 0 := by
  constructor
  · show ((writeBuf s.decrypted_msg _).set size 0).getD size 1 = 0
    exact getD_set_zero _ _ (by rw [writeBuf_length, h2]; exact h1)
  · show ((writeBuf s.decrypted_msg _).set size 0).getD size 1 = 0
    exact getD_set_zero _ _ (by rw [writeBuf_length, h2]; exact h1)

/-- C8 witness: in the initial state, decrypting with length 5 leaves a
NUL at index 5 of `decrypted_msg`, for both modes. -/
theorem spec_C8_decrypt_nul_terminated_witness :
    5 < MAX_MESSAGE_SIZE ∧
    initState.decrypted_msg.length = MAX_MESSAGE_SIZE ∧
    ((decrypt_message_ctr initState 5).decrypted_msg.getD 5 1 = 0 ∧
     (decrypt_message_cfb initState 5).decrypted_msg.getD 5 1 = 0) :=
  ⟨by decide, by decide,
   spec_C8_decrypt_nul_terminated initState 5 (by decide) (by decide)⟩

/-- C9: No operation returns a partial result.  Each cipher call either
succeeds with the complete `aes_block_count * 16`-byte buffer or (on
any non-success vendor status) produces nothing; the SHA-256 branch
surfaces the whole digest or nothing; and `generate_password` produces
either nothing — in particular whenever TRNG initialization fails — or
the complete `PASSWORD_LENGTH + 1`-byte password array. -/
theorem spec_C9_all_or_nothing (sI sC sF st s0 s1 : CyStatus)
    (msg ct : List Nat) (size : Nat) (sha : List Nat → List Nat)
    (draws : Nat → Nat) :
    (encrypt_message_cfb_run sI sC sF msg size = none ∨
      ∃ out, encrypt_message_cfb_run sI sC sF msg size = some out ∧
        out.length = aes_block_count size * 16) ∧
    (decrypt_message_cfb_run sI sC sF ct size = none ∨
      ∃ out, decrypt_message_cfb_run sI sC sF ct size = some out ∧
        out.length = aes_block_count size * 16) ∧
    (encrypt_message_ctr_run sI sC sF msg size = none ∨
      ∃ out, encrypt_message_ctr_run sI sC sF msg size = some out ∧
        out.length = aes_block_count size * 16) ∧
    (decrypt_message_ctr_run sI sC sF ct size = none ∨
      ∃ out, decrypt_message_ctr_run sI sC sF ct size = some out ∧
        out.length = aes_block_count size * 16) ∧
    (sha256_run sha st msg = none ∨ sha256_run sha st msg = some (sha msg)) ∧
    (generate_password_run CyStatus.failure s0 s1 draws = none) ∧
    (generate_password_run sI s0 s1 draws = none ∨
      ∃ p, generate_password_run sI s0 s1 draws = some p ∧
        p.length = PASSWORD_LENGTH + 1) := by
  refine ⟨?_, ?_, ?_, ?_, ?_, rfl, ?_⟩
  · cases sI with
    | failure => exact Or.inl rfl
    | success => cases sC with
      | failure => exact Or.inl rfl
      | success => cases sF with
        | failure => exact Or.inl rfl
        | success =>
          exact Or.inr ⟨_, rfl, by
            rw [cfbProcess_length aesEk CfbDir.encrypt aesEk_length]; ring⟩
  · cases sI with
    | failure => exact Or.inl rfl
    | success => cases sC with
      | failure => exact Or.inl rfl
      | success => cases sF with
        | failure => exact Or.inl rfl
        | success =>
          exact Or.inr ⟨_, rfl, by
            rw [cfbProcess_length aesEk CfbDir.decrypt aesEk_length]; ring⟩
  · cases sI with
    | failure => exact Or.inl rfl
    | success => cases sC with
      | failure => exact Or.inl rfl
      | success => cases sF with
        | failure => exact Or.inl rfl
        | success =>
          exact Or.inr ⟨_, rfl, by
            rw [ctrProcess_length aesEk aesEk_length]; ring⟩
  · cases sI with
    | failure => exact Or.inl rfl
    | success => cases sC with
      | failure => exact Or.inl rfl
      | success => cases sF with
        | failure => exact Or.inl rfl
        | success =>
          exact Or.inr ⟨_, rfl, by
            rw [ctrProcess_length aesEk aesEk_length]; ring⟩
  · cases st with
    | success => exact Or.inr rfl
    | failure => exact Or.inl rfl
  · cases sI with
    | failure => exact Or.inl rfl
    | success => cases s0 with
      | failure => exact Or.inl rfl
      | success => cases s1 with
        | failure => exact Or.inl rfl
        | success => exact Or.inr ⟨_, rfl, rfl⟩

/-- C6: The password generator produces exactly `PASSWORD_LENGTH = 8`
characters followed by a NUL terminator; iteration `k` of the loop uses
the single 32-bit draw `draws k` for 4 output characters, extracting
its bytes least-significant first (shifts 0, 8, 16, 24), masking each
to 7 bits, and applying `check_range` (which adds 33 exactly when the
masked value is below 33). -/
theorem spec_C6_password_generator (draws : Nat → Nat) :
    generate_password_bytes draws =
      [check_range ((draws 0 >>> 0) &&& ASCII_7BIT_MASK),
       check_range ((draws 0 >>> 8) &&& ASCII_7BIT_MASK),
       check_range ((draws 0 >>> 16) &&& ASCII_7BIT_MASK),
       check_range ((draws 0 >>> 24) &&& ASCII_7BIT_MASK),
       check_range ((draws 1 >>> 0) &&& ASCII_7BIT_MASK),
       check_range ((draws 1 >>> 8) &&& ASCII_7BIT_MASK),
       check_range ((draws 1 >>> 16) &&& ASCII_7BIT_MASK),
       check_range ((draws 1 >>> 24) &&& ASCII_7BIT_MASK),
       0] ∧
    (generate_password_bytes draws).length = PASSWORD_LENGTH + 1 := by
  constructor
  · rw [generate_password_bytes, generate_password_chars_eq]
    rfl
  · rfl

/-- The range of `check_range` on a 7-bit-masked byte: always a
non-NUL value in `[33, 127]`. -/
theorem check_range_masked_bounds (x : Nat) :
    33 ≤ check_range (x &&& ASCII_7BIT_MASK) ∧
    check_range (x &&& ASCII_7BIT_MASK) ≤ 127 ∧
    check_range (x &&& ASCII_7BIT_MASK) ≠ 0 := by
  have hx : x &&& ASCII_7BIT_MASK ≤ 127 := Nat.and_le_right
  unfold check_range ASCII_VISIBLE_CHARACTER_START
  split <;> omega

/-- C7 counterexample: with every random draw equal to `0x7F7F7F7F`,
every password byte is 127 (the DEL control character), so the claim
that every byte lies in `[33, 126]` and that the password contains no
control characters is false. -/
theorem spec_C7_counterexample :
    (generate_password_chars (fun _ => 0x7F7F7F7F)).getD 0 0 = 127 ∧
    ¬ (∀ b ∈ generate_password_chars (fun _ => 0x7F7F7F7F), b ≤ 126) := by
  decide

/-- C7 (amended): for every sequence of random draws, every byte of the
generated 8-character password lies in the inclusive range `[33, 127]`
and is never NUL (the value 127 — the DEL control character — is not
excluded by `check_range`). -/
theorem spec_C7_password_byte_range (draws : Nat → Nat) (b : Nat)
    (hb : b ∈ generate_password_chars draws) :
    33 ≤ b ∧ b ≤ 127 ∧ b ≠ 0 := by
  rw [generate_password_chars_eq] at hb
  simp only [List.mem_cons, List.not_mem_nil, or_false] at hb
  rcases hb with rfl | rfl | rfl | rfl | rfl | rfl | rfl | rfl <;>
    exact check_range_masked_bounds _

/-- C7 witness: the byte 33 produced by all-zero draws is in range. -/
theorem spec_C7_password_byte_range_witness :
    33 ∈ generate_password_chars (fun _ => 0) ∧
    (33 ≤ 33 ∧ 33 ≤ 127 ∧ (33 : Nat) ≠ 0) :=
  ⟨by decide, spec_C7_password_byte_range (fun _ => 0) 33 (by decide)⟩

/-- C10: One iteration of `enter_message` preserves the input-loop
invariant `msg_size ≤ MAX_MESSAGE_SIZE - 1` (a backspace never takes it
below 0, and an increment that exceeds the bound resets the buffer and
`msg_size` to 0 before the next character), the received byte is stored
at the in-bounds index `msg_size`, and the buffer keeps its size. -/
theorem spec_C10_enter_message_invariant (s : ProgState) (recv : Option Nat)
    (hsize : s.msg_size ≤ MAX_MESSAGE_SIZE - 1)
    (hlen : s.message.length = MAX_MESSAGE_SIZE) :
    (enter_message s recv).msg_size ≤ MAX_MESSAGE_SIZE - 1 ∧
    s.msg_size < s.message.length ∧
    (enter_message s recv).message.length = MAX_MESSAGE_SIZE := by
  have hin : s.msg_size < s.message.length := by
    rw [hlen]
    unfold MAX_MESSAGE_SIZE at hsize ⊢
    omega
  refine ⟨?_, hin, ?_⟩
  · unfold enter_message
    cases recv with
    | none => exact hsize
    | some c =>
      dsimp only
      split_ifs <;> first | exact hsize | decide | (dsimp only; omega)
  · unfold enter_message
    cases recv with
    | none => exact hlen
    | some c =>
      dsimp only
      split_ifs <;> simp [hlen]

/-- C10 witness: receiving the character `A` in the initial state keeps
the invariant. -/
theorem spec_C10_enter_message_invariant_witness :
    initState.msg_size ≤ MAX_MESSAGE_SIZE - 1 ∧
    initState.message.length = MAX_MESSAGE_SIZE ∧
    ((enter_message initState (some 65)).msg_size ≤ MAX_MESSAGE_SIZE - 1 ∧
     initState.msg_size < initState.message.length ∧
     (enter_message initState (some 65)).message.length = MAX_MESSAGE_SIZE) :=
  ⟨by decide, by decide,
   spec_C10_enter_message_invariant initState (some 65) (by decide) (by decide)⟩

end Cryptolite
